import Mathlib

/-!
Verification of the geometry engine of `detgeo_pyqt6.py` (with its variant
`detgeo_pyqt6_dd.py`): the conic-section solver `calc_conic`, the detector
footprint builder `build_detector`, the unit conversions used by
`draw_contours` / `draw_reference`, and the reference-series mapper
`get_cif_reference`.  Numeric values are modelled over `ℝ` (over `ℚ` for the
purely arithmetic reference mapper), idealising floating point.
-/

open Real

/-- `np.deg2rad`. -/
noncomputable def deg2rad (x : ℝ) : ℝ := x * Real.pi / 180

/-- `np.round` to the nearest integer, rounding halves to even (numpy's rule). -/
noncomputable def npRoundInt (y : ℝ) : ℤ :=
  if Int.fract y < 1/2 then ⌊y⌋
  else if 1/2 < Int.fract y then ⌊y⌋ + 1
  else if Even ⌊y⌋ then ⌊y⌋ else ⌊y⌋ + 1

/-- `np.round(x, 10)`: rounding to 10 decimal digits. -/
noncomputable def npRound10 (x : ℝ) : ℝ := (npRoundInt (x * 10^10) : ℝ) / 10^10

/-- `np.linspace a b n`: `n` evenly spaced samples from `a` to `b` inclusive. -/
noncomputable def linspace (a b : ℝ) (n : ℕ) : List ℝ :=
  (List.range n).map (fun i : ℕ => a + (i : ℝ) * (b - a) / ((n : ℝ) - 1))

/-- Python `max` over a list (0 for the empty list, which `calc_conic` never hits). -/
noncomputable def listMax : List ℝ → ℝ
  | [] => 0
  | a :: t => t.foldl max a

/-- Python `min` over a list (0 for the empty list, which `calc_conic` never hits). -/
noncomputable def listMin : List ℝ → ℝ
  | [] => 0
  | a :: t => t.foldl min a

/-- The geometry state `self.geo` (fields read by the engine). -/
structure Geo where
  ener : ℝ
  dist : ℝ
  yoff : ℝ
  xoff : ℝ
  rota : ℝ
  tilt : ℝ
  unit : ℕ

/-- The plot state `self.plo` (fields read by the engine; `xdim`/`ydim` are the
half-extents computed in `init_screen`). -/
structure Plo where
  xdim : ℝ
  ydim : ℝ
  cont_steps : ℕ
  cont_ref_num : ℕ

/-- A detector spec as produced by `get_specs_det`. -/
structure Det where
  hms : ℝ
  vms : ℝ
  pxs : ℝ
  hgp : ℕ
  vgp : ℕ
  cbh : ℝ
  hmn : ℕ
  vmn : ℕ

/-- `ecc = np.round(np.cos(np.pi/2 - omega) / np.cos(theta), 10)` in `calc_conic`. -/
noncomputable def eccOf (omega theta : ℝ) : ℝ :=
  npRound10 (Real.cos (Real.pi/2 - omega) / Real.cos theta)

/-- `dy_cone = self.geo.dist * np.tan(omega)`. -/
noncomputable def dyCone (geo : Geo) (omega : ℝ) : ℝ := geo.dist * Real.tan omega

/-- `dz_cone = np.sqrt(self.geo.dist**2 + dy_cone**2)`. -/
noncomputable def dzCone (geo : Geo) (omega : ℝ) : ℝ :=
  Real.sqrt (geo.dist^2 + (dyCone geo omega)^2)

/-- `y1 = dz_cone * np.sin(theta) / np.cos(omega + theta)`. -/
noncomputable def conic_y1 (geo : Geo) (omega theta : ℝ) : ℝ :=
  dzCone geo omega * Real.sin theta / Real.cos (omega + theta)

/-- `y2 = dz_cone * np.sin(theta) / np.cos(omega - theta)`. -/
noncomputable def conic_y2 (geo : Geo) (omega theta : ℝ) : ℝ :=
  dzCone geo omega * Real.sin theta / Real.cos (omega - theta)

/-- `w = dz_cone * np.sin(theta) * (y1+y2) / (2 * np.sqrt(y1*y2) * np.cos(theta))`
in the ellipse branch of `calc_conic`. -/
noncomputable def ellipse_w (geo : Geo) (omega theta : ℝ) : ℝ :=
  dzCone geo omega * Real.sin theta *
      (conic_y1 geo omega theta + conic_y2 geo omega theta) /
    (2 * Real.sqrt (conic_y1 geo omega theta * conic_y2 geo omega theta) * Real.cos theta)

/-- The parameter samples of the ellipse branch of `calc_conic`
(`detgeo_pyqt6.py` lines 730-737): two arcs clipped to the 1.05 margin when
both `arcsin` arguments are `< 1`, otherwise the full `[0, 2π]` range. -/
noncomputable def ellipse_t (plo : Plo) (x0 w : ℝ) (steps : ℕ) : List ℝ :=
  let xlim1 := (plo.xdim * 1.05 + x0) / w
  let xlim2 := (plo.xdim * 1.05 - x0) / w
  if xlim1 < 1 ∧ xlim2 < 1 then
    let l := -Real.arcsin xlim1
    let r := Real.arcsin xlim2
    linspace l r steps ++ linspace (-r + Real.pi) (-l + Real.pi) steps
  else
    linspace 0 (2*Real.pi) (2*steps)

/-- `label_pos` selection at the end of `calc_conic`. -/
noncomputable def labelPos (omega theta : ℝ) (y : List ℝ) : ℝ :=
  if omega ≤ 0 then (if theta < Real.pi/2 then listMax y else listMin y)
  else (if theta < Real.pi/2 then listMin y else listMax y)

/-- The shared tail of `calc_conic` (`detgeo_pyqt6.py` lines 765-782): the
per-axis visibility test (`cx`/`cy` emptiness via `np.argwhere`) and the label
anchor; the sampled points are returned unchanged when visible. -/
noncomputable def finishConic (plo : Plo) (omega theta : ℝ) (x y : List ℝ) :
    Option (List ℝ × List ℝ × ℝ) :=
  if (∃ a ∈ x, -plo.xdim ≤ a ∧ a ≤ plo.xdim) ∧ (∃ b ∈ y, -plo.ydim ≤ b ∧ b ≤ plo.ydim) then
    some (x, y, labelPos omega theta y)
  else none

/-- `MainWindow.calc_conic` of `detgeo_pyqt6.py` (lines 679-782).  `none` models
the `return False, False, False` paths.  The final `none` arm is unreachable:
the eccentricity conditions cover all reals. -/
noncomputable def calc_conic (geo : Geo) (plo : Plo) (omega theta : ℝ) (steps : ℕ) :
    Option (List ℝ × List ℝ × ℝ) :=
  if theta > Real.pi/2 + |omega| then none
  else
    let dy_cone := dyCone geo omega
    let comp_tilt := deg2rad geo.tilt * geo.dist
    let ecc := eccOf omega theta
    let e21 := ecc^2 - 1
    let y1 := conic_y1 geo omega theta
    let y2 := conic_y2 geo omega theta
    let y0 := dy_cone - geo.yoff + comp_tilt
    let x0 := geo.xoff
    if |ecc| = 0 then
      let h := (y1 + y2)/2
      if h - Real.sqrt (y0^2 + x0^2) > Real.sqrt (plo.ydim^2 + plo.xdim^2) then none
      else
        let t := linspace 0 (2*Real.pi) (2*steps)
        finishConic plo omega theta (t.map fun s => x0 + h * Real.sin s)
          (t.map fun s => y0 + (y1 - y2)/2 + h * Real.cos s)
    else if 0 < |ecc| ∧ |ecc| < 1 then
      let yd := (y1 - y2)/2
      let h := (y1 + y2)/2
      let w := ellipse_w geo omega theta
      let t := ellipse_t plo x0 w steps
      finishConic plo omega theta (t.map fun s => x0 + w * Real.sin s)
        (t.map fun s => y0 + yd + h * Real.cos s)
    else if |ecc| = 1 then
      let yd := Real.sign ecc * geo.dist * Real.tan (|omega| - theta)
      let a := Real.sign ecc * geo.dist * Real.tan theta
      let l := -(plo.xdim + x0) / a
      let r := (plo.xdim - x0) / a
      let t := linspace l r steps
      finishConic plo omega theta (t.map fun s => x0 + a * s)
        (t.map fun s => y0 - dy_cone + yd + a/2 * s^2)
    else if 1 < |ecc| ∧ |ecc| < 100 then
      let h := Real.sign omega * (y1 + y2)/2
      let w := h * Real.sqrt e21
      let l := -Real.arsinh ((plo.xdim + x0) / w)
      let r := Real.arsinh ((plo.xdim - x0) / w)
      let t := linspace l r steps
      finishConic plo omega theta (t.map fun s => x0 + w * Real.sinh s)
        (t.map fun s => y0 + (y1 - y2)/2 - h * Real.cosh s)
    else if 100 ≤ |ecc| then
      let t := linspace (-plo.xdim) plo.xdim 2
      let a := -Real.sign ecc * min |y1| |y2|
      finishConic plo omega theta t (t.map fun _ => y0 + a)
    else none

/-- One iteration of the `draw_reference` loop of `detgeo_pyqt6.py`
(lines 634-677), as a function of the loop's d-spacing entry: the drawn curve
for that slot, `none` when the entry is skipped. -/
noncomputable def refSlot (geo : Geo) (plo : Plo) (d : ℝ) : Option (List ℝ × List ℝ) :=
  if d ≤ 0 then none
  else
    let lambda_d := (12.398 / geo.ener) / (2 * d)
    if lambda_d > 1 then none
    else
      let theta := 2 * Real.arcsin lambda_d
      let omega := -deg2rad (geo.tilt + geo.rota)
      match calc_conic geo plo omega theta plo.cont_steps with
      | none => none
      | some (x, y, _) => some (x, y)

/-- `MainWindow.draw_reference` of `detgeo_pyqt6.py`: the index-addressed series
of reference curves, one slot per contour index `n < cont_ref_num`; slot `n` is
produced from d-spacing entry `n` alone. -/
noncomputable def draw_reference (geo : Geo) (plo : Plo) (dsp : List ℝ) :
    List (Option (List ℝ × List ℝ)) :=
  (List.range plo.cont_ref_num).map fun n =>
    if n < dsp.length then refSlot geo plo (dsp.getD n 0) else none

/-- `stl = np.sin(theta/2)/(12.398/self.geo.ener)` in `draw_contours`. -/
noncomputable def stl_of (ener theta : ℝ) : ℝ := Real.sin (theta/2) / (12.398 / ener)

/-- `dsp = 1/(2*stl)` in `draw_contours`. -/
noncomputable def dsp_of (ener theta : ℝ) : ℝ := 1 / (2 * stl_of ener theta)

/-- `theta = 2 * np.arcsin((12.398/ener) / (2*d))` in `draw_reference`. -/
noncomputable def theta_of (ener d : ℝ) : ℝ := 2 * Real.arcsin ((12.398 / ener) / (2 * d))

/-- `reflections[:,4].max()` in `get_cif_reference`: the maximum intensity of
the raw reflection list, each entry modelled as `(d-spacing, intensity)`. -/
def refMaxInt : List (ℚ × ℚ) → ℚ
  | [] => 0
  | r :: t => t.foldl (fun acc s => max acc s.2) r.2

/-- `MainWindow.get_cif_reference` of `detgeo_pyqt6.py` (lines 272-280), the
pure mapping part: keep entries whose intensity exceeds
`max(intensity) * minInt`, order by descending intensity, keep the strongest
`maxN`.  (`maxN`, `minInt` are `plo.cont_ref_num`, `plo.cont_ref_min_int`.) -/
def get_cif_ordered (maxN : ℕ) (minInt : ℚ) (refl : List (ℚ × ℚ)) : List (ℚ × ℚ) :=
  let m := refMaxInt refl
  let used := refl.filter (fun r => decide (m * minInt < r.2))
  ((List.insertionSort (fun a b => a.2 ≤ b.2) used).reverse).take maxN

/-- The d-spacing column (`ordered[:,3]`) of the mapped reference series. -/
def get_cif_dsp (maxN : ℕ) (minInt : ℚ) (refl : List (ℚ × ℚ)) : List ℚ :=
  (get_cif_ordered maxN minInt refl).map Prod.fst

/-- Python `range a b` over integers. -/
def intRange (a b : ℤ) : List ℤ := (List.range (b - a).toNat).map fun k : ℕ => a + (k : ℤ)

/-- The horizontal module indices of `build_detector`:
`range(-det.hmn//2+det.hmn%2, det.hmn-det.hmn//2)` with Python's floor `//`. -/
def hIndices (det : Det) : List ℤ :=
  intRange ((-(det.hmn : ℤ)).fdiv 2 + (det.hmn : ℤ) % 2) ((det.hmn : ℤ) - (det.hmn : ℤ).fdiv 2)

/-- The vertical module indices of `build_detector`. -/
def vIndices (det : Det) : List ℤ :=
  intRange ((-(det.vmn : ℤ)).fdiv 2 + (det.vmn : ℤ) % 2) ((det.vmn : ℤ) - (det.vmn : ℤ).fdiv 2)

/-- `origin_x` of one module rectangle in `build_detector` (Python `&` is
`Int.land`, `//` is `Int.fdiv`). -/
noncomputable def origin_x (det : Det) (i j : ℤ) : ℝ :=
  (i : ℝ) * (det.hms + det.hgp * det.pxs)
    - ((det.hms + det.hgp * det.pxs)/2) * ((det.hmn % 2 : ℕ) : ℝ)
    + (det.hgp * det.pxs)/2
    + (det.cbh/2) * (((2 * Int.land j det.vmn).fdiv det.vmn - 1 : ℤ) : ℝ)

/-- `origin_y` of one module rectangle in `build_detector`. -/
noncomputable def origin_y (det : Det) (i j : ℤ) : ℝ :=
  (j : ℝ) * (det.vms + det.vgp * det.pxs)
    - ((det.vms + det.vgp * det.pxs)/2) * ((det.vmn % 2 : ℕ) : ℝ)
    + (det.vgp * det.pxs)/2
    + (det.cbh/2) * ((1 - (2 * Int.land i det.hmn).fdiv det.hmn : ℤ) : ℝ)

/-- `MainWindow.build_detector` of `detgeo_pyqt6.py` (lines 557-584): the list
of module-rectangle origins (each rectangle has fixed size `hms × vms`).  The
method has access to the whole geometry state `_geo` but reads none of it. -/
noncomputable def build_detector (_geo : Geo) (det : Det) : List (ℝ × ℝ) :=
  (hIndices det).flatMap fun i => (vIndices det).map fun j => (origin_x det i j, origin_y det i j)

/-- `self.plo.xdim` as computed in `init_screen` (line 121); the method reads
the geometry state `_geo` for none of it. -/
noncomputable def xdim_of (_geo : Geo) (det : Det) : ℝ :=
  (det.hms * det.hmn + det.pxs * det.hgp * det.hmn + det.cbh)/2

/-- `self.plo.ydim` as computed in `init_screen` (line 122). -/
noncomputable def ydim_of (_geo : Geo) (det : Det) : ℝ :=
  (det.vms * det.vmn + det.pxs * det.vgp * det.vmn + det.cbh)/2

/-- A concrete geometry: `dist = 70` mm, all offsets and angles zero
(`ener`, `unit` as in the defaults). -/
noncomputable def geoEx : Geo := ⟨21, 70, 0, 0, 0, 0, 1⟩

/-- A concrete plot state: half-extents `55 × 50` mm, 2 sampling steps. -/
noncomputable def ploEx : Plo := ⟨55, 50, 2, 2⟩

/-- The x samples `calc_conic geoEx ploEx 0 (π/4) 2` produces. -/
noncomputable def xsEx : List ℝ := [0, 35*Real.sqrt 3, -(35*Real.sqrt 3), 0]

/-- The y samples `calc_conic geoEx ploEx 0 (π/4) 2` produces. -/
noncomputable def ysEx : List ℝ := [70, -35, -35, 70]

/-- A second geometry agreeing with `geoEx` on `dist`/`yoff`/`xoff`/`tilt` but
differing in `ener`, `rota` and `unit`. -/
noncomputable def geoEx2 : Geo := ⟨99, 70, 0, 0, 25, 0, 0⟩

/-- A second plot state agreeing with `ploEx` on `xdim`/`ydim` but differing in
the sampling fields. -/
noncomputable def ploEx2 : Plo := ⟨55, 50, 7, 9⟩

/-- A plot state with half-extents `60 × 60` mm, used for ellipse sampling. -/
noncomputable def ploEx4 : Plo := ⟨60, 60, 2, 2⟩

/-- A geometry reaching the ellipse branch: `dist = 100` mm, `xoff = 20` mm,
`rota = 30°`, no tilt. -/
noncomputable def geoEx4 : Geo := ⟨21, 100, 0, 20, 30, 0, 1⟩

/-- The EIGER2 4M detector spec of `get_det_library`. -/
noncomputable def detEx : Det := ⟨77.1, 38.4, 0.075, 38, 12, 0, 2, 4⟩

theorem linspace_length (a b : ℝ) (n : ℕ) : (linspace a b n).length = n := by
  rw [linspace, List.length_map, List.length_range]

theorem mem_linspace_bounds {a b s : ℝ} {n : ℕ} (hab : a ≤ b) (hs : s ∈ linspace a b n) :
    a ≤ s ∧ s ≤ b := by
  rw [linspace, List.mem_map] at hs
  obtain ⟨i, hmem, rfl⟩ := hs
  have hi : i < n := List.mem_range.mp hmem
  rcases Nat.lt_or_ge n 2 with hn | hn
  · have hi0 : i = 0 := by omega
    subst hi0
    simp [hab]
  · have hpos : (0:ℝ) < (n : ℝ) - 1 := by
      have : (2:ℝ) ≤ (n : ℝ) := by exact_mod_cast hn
      linarith
    have hnn : (0:ℝ) ≤ (i : ℝ) := by positivity
    have hnum : (0:ℝ) ≤ (i : ℝ) * (b - a) := by nlinarith
    constructor
    · have : (0:ℝ) ≤ (i : ℝ) * (b - a) / ((n : ℝ) - 1) := div_nonneg hnum hpos.le
      linarith
    · have hile : (i : ℝ) ≤ (n : ℝ) - 1 := by
        have : (i : ℝ) + 1 ≤ (n : ℝ) := by exact_mod_cast hi
        linarith
      have h2 : (i : ℝ) * (b - a) / ((n : ℝ) - 1) ≤ b - a := by
        rw [div_le_iff₀ hpos]
        nlinarith
      linarith

theorem npRoundInt_abs_le (y : ℝ) : |(npRoundInt y : ℝ) - y| ≤ 1/2 := by
  have hfl := Int.floor_le y
  have hfu := Int.lt_floor_add_one y
  have hf : Int.fract y = y - ⌊y⌋ := rfl
  unfold npRoundInt
  split
  · rw [abs_le]
    constructor <;> [linarith; (rw [hf] at *; linarith)]
  · rename_i h1
    push_neg at h1
    rw [hf] at h1
    split
    · rename_i h2
      rw [hf] at h2
      rw [abs_le]
      push_cast
      constructor <;> linarith
    · rename_i h2
      push_neg at h2
      rw [hf] at h2
      have heq : y - (⌊y⌋:ℝ) = 1/2 := le_antisymm h2 h1
      split
      · rw [abs_le]; constructor <;> linarith
      · rw [abs_le]; push_cast; constructor <;> linarith

theorem npRound10_abs_le (x : ℝ) : |npRound10 x - x| ≤ 1/(2*10^10) := by
  unfold npRound10
  have h := npRoundInt_abs_le (x * 10^10)
  have hpos : (0:ℝ) < 10^10 := by norm_num
  have hrw : (npRoundInt (x * 10^10) : ℝ)/10^10 - x
      = ((npRoundInt (x * 10^10) : ℝ) - x * 10^10)/10^10 := by
    field_simp
    ring
  rw [hrw, abs_div, abs_of_pos hpos, div_le_iff₀ hpos]
  calc |(npRoundInt (x * 10^10) : ℝ) - x * 10^10| ≤ 1/2 := h
    _ = 1/(2*10^10) * 10^10 := by norm_num

theorem npRound10_zero : npRound10 0 = 0 := by
  unfold npRound10 npRoundInt
  norm_num [Int.fract]

theorem finishConic_eq_some {plo : Plo} {omega theta : ℝ} {x y xs ys : List ℝ} {l : ℝ}
    (h : finishConic plo omega theta x y = some (xs, ys, l)) :
    xs = x ∧ ys = y ∧ l = labelPos omega theta y ∧
      (∃ a ∈ x, -plo.xdim ≤ a ∧ a ≤ plo.xdim) ∧ (∃ b ∈ y, -plo.ydim ≤ b ∧ b ≤ plo.ydim) := by
  unfold finishConic at h
  split at h
  · rename_i hc
    simp only [Option.some.injEq, Prod.mk.injEq] at h
    exact ⟨h.1.symm, h.2.1.symm, h.2.2.symm, hc.1, hc.2⟩
  · exact absurd h (by simp)

theorem finishConic_eq_none_iff {plo : Plo} {omega theta : ℝ} {x y : List ℝ} :
    finishConic plo omega theta x y = none ↔
      ¬((∃ a ∈ x, -plo.xdim ≤ a ∧ a ≤ plo.xdim) ∧ (∃ b ∈ y, -plo.ydim ≤ b ∧ b ≤ plo.ydim)) := by
  unfold finishConic
  split
  · rename_i hc
    simp [hc]
  · rename_i hc
    simp [hc]

theorem sin_two_thirds_pi : Real.sin (2*Real.pi/3) = Real.sqrt 3/2 := by
  rw [show (2*Real.pi/3) = Real.pi - Real.pi/3 by ring, Real.sin_pi_sub, Real.sin_pi_div_three]

theorem cos_two_thirds_pi : Real.cos (2*Real.pi/3) = -(1/2) := by
  rw [show (2*Real.pi/3) = Real.pi - Real.pi/3 by ring, Real.cos_pi_sub, Real.cos_pi_div_three]

theorem sin_four_thirds_pi : Real.sin (2*Real.pi*2/3) = -(Real.sqrt 3/2) := by
  rw [show (2*Real.pi*2/3) = Real.pi + Real.pi/3 by ring, Real.sin_add]
  simp [Real.sin_pi_div_three]

theorem cos_four_thirds_pi : Real.cos (2*Real.pi*2/3) = -(1/2) := by
  rw [show (2*Real.pi*2/3) = Real.pi + Real.pi/3 by ring, Real.cos_add]
  simp [Real.cos_pi_div_three]

theorem linspace_zero_two_pi_four :
    linspace 0 (2*Real.pi) 4 = [0, 2*Real.pi/3, 2*Real.pi*2/3, 2*Real.pi] := by
  simp [linspace, List.range_succ]
  norm_num
  ring

theorem listMax_ysEx : listMax ysEx = 70 := by
  simp [listMax, ysEx]
  norm_num [max_def]

theorem finish_ex : finishConic ploEx 0 (Real.pi/4) xsEx ysEx = some (xsEx, ysEx, 70) := by
  have hpi := Real.pi_pos
  unfold finishConic
  rw [if_pos]
  · rw [labelPos, if_pos (le_refl (0:ℝ)), if_pos (by linarith : Real.pi/4 < Real.pi/2), listMax_ysEx]
  · constructor
    · exact ⟨0, by simp [xsEx], by norm_num [ploEx], by norm_num [ploEx]⟩
    · exact ⟨-35, by simp [ysEx], by norm_num [ploEx], by norm_num [ploEx]⟩

theorem calc_conic_circle_ex :
    calc_conic geoEx ploEx 0 (Real.pi/4) 2 = some (xsEx, ysEx, 70) := by
  have hpi := Real.pi_pos
  have hguard : ¬(Real.pi/4 > Real.pi/2 + |(0:ℝ)|) := by
    simp only [abs_zero, add_zero, gt_iff_lt, not_lt]
    linarith
  have hdy : dyCone geoEx 0 = 0 := by
    simp [dyCone, geoEx, Real.tan_zero]
  have hdz : dzCone geoEx 0 = 70 := by
    rw [dzCone, hdy]
    have hd : geoEx.dist = 70 := rfl
    rw [hd, show (70:ℝ)^2 + 0^2 = 70^2 by norm_num]
    exact Real.sqrt_sq (by norm_num)
  have hy1 : conic_y1 geoEx 0 (Real.pi/4) = 70 := by
    rw [conic_y1, hdz, zero_add, Real.sin_pi_div_four, Real.cos_pi_div_four,
      mul_div_assoc, div_self (by positivity), mul_one]
  have hy2 : conic_y2 geoEx 0 (Real.pi/4) = 70 := by
    rw [conic_y2, hdz, zero_sub, Real.cos_neg, Real.sin_pi_div_four, Real.cos_pi_div_four,
      mul_div_assoc, div_self (by positivity), mul_one]
  have hecc : eccOf 0 (Real.pi/4) = 0 := by
    rw [eccOf, sub_zero, Real.cos_pi_div_two, zero_div, npRound10_zero]
  have hsqrt : ¬(Real.sqrt 5525 < 70) := by
    rw [not_lt, show (70:ℝ) = Real.sqrt 4900 by
      rw [show (4900:ℝ) = 70^2 by norm_num, Real.sqrt_sq (by norm_num)]]
    exact Real.sqrt_le_sqrt (by norm_num)
  unfold calc_conic
  rw [if_neg hguard]
  simp only [hdy, hecc, hy1, hy2, abs_zero,
    show geoEx.yoff = 0 from rfl, show geoEx.xoff = 0 from rfl,
    show geoEx.tilt = 0 from rfl, show geoEx.dist = 70 from rfl,
    show ploEx.xdim = 55 from rfl, show ploEx.ydim = 50 from rfl, deg2rad]
  norm_num
  constructor
  · exact not_lt.mp hsqrt
  · rw [linspace_zero_two_pi_four]
    have hx : List.map (fun s => 70 * Real.sin s) [0, 2*Real.pi/3, 2*Real.pi*2/3, 2*Real.pi]
        = xsEx := by
      simp [xsEx, sin_two_thirds_pi, sin_four_thirds_pi, Real.sin_two_pi]
      ring
    have hy : List.map (fun s => 70 * Real.cos s) [0, 2*Real.pi/3, 2*Real.pi*2/3, 2*Real.pi]
        = ysEx := by
      simp [ysEx, cos_two_thirds_pi, cos_four_thirds_pi, Real.cos_two_pi]
      norm_num
    rw [hx, hy, finish_ex]

/-- Claim C1: for every `omega` and every `theta` with `theta > π/2 + |omega|`,
`calc_conic` returns the not-visible result (no curve, no label anchor) before
any conic computation. -/
theorem c1_backscatter_not_visible (geo : Geo) (plo : Plo) (omega theta : ℝ) (steps : ℕ)
    (h : theta > Real.pi/2 + |omega|) :
    calc_conic geo plo omega theta steps = none := by
  unfold calc_conic
  rw [if_pos h]

/-- Witness for C1: `theta = deg2rad 170`, `rotation = tilt = 0` (so
`omega = -deg2rad (0 + 0) = 0`) is deterministically not visible. -/
theorem c1_backscatter_not_visible_witness :
    deg2rad 170 > Real.pi/2 + |(-deg2rad (0 + 0))| ∧
      calc_conic geoEx ploEx (-deg2rad (0 + 0)) (deg2rad 170) 100 = none := by
  have hpi := Real.pi_pos
  have h : deg2rad 170 > Real.pi/2 + |(-deg2rad (0 + 0))| := by
    rw [show deg2rad (0 + 0) = 0 by simp [deg2rad]]
    simp only [neg_zero, abs_zero, add_zero, gt_iff_lt, deg2rad]
    linarith
  exact ⟨h, c1_backscatter_not_visible _ _ _ _ _ h⟩

/-- Claim C9: the conic computation is a deterministic pure function of the
geometry fields and detector half-extents it reads; two invocations whose
states agree on those fields (whatever the other fields, e.g. `ener`, `rota`,
`unit`, sampling config of unrelated parts) return identical curves and label
anchors, with no dependency on previously computed output. -/
theorem c9_calc_conic_pure (g1 g2 : Geo) (p1 p2 : Plo) (omega theta : ℝ) (steps : ℕ)
    (hdist : g1.dist = g2.dist) (hyoff : g1.yoff = g2.yoff) (hxoff : g1.xoff = g2.xoff)
    (htilt : g1.tilt = g2.tilt) (hxdim : p1.xdim = p2.xdim) (hydim : p1.ydim = p2.ydim) :
    calc_conic g1 p1 omega theta steps = calc_conic g2 p2 omega theta steps := by
  obtain ⟨e1, d1, yo1, xo1, r1, t1, u1⟩ := g1
  obtain ⟨e2, d2, yo2, xo2, r2, t2, u2⟩ := g2
  obtain ⟨xd1, yd1, cs1, cr1⟩ := p1
  obtain ⟨xd2, yd2, cs2, cr2⟩ := p2
  dsimp only at hdist hyoff hxoff htilt hxdim hydim
  subst hdist hyoff hxoff htilt hxdim hydim
  rfl

/-- Witness for C9: two states differing in `ener`, `rota`, `unit` and the
sampling configuration fields produce the same curve. -/
theorem c9_calc_conic_pure_witness :
    calc_conic geoEx ploEx 0 (Real.pi/4) 2 = calc_conic geoEx2 ploEx2 0 (Real.pi/4) 2 :=
  c9_calc_conic_pure geoEx geoEx2 ploEx ploEx2 0 (Real.pi/4) 2 rfl rfl rfl rfl rfl rfl

theorem ellipse_t_length (plo : Plo) (x0 w : ℝ) (steps : ℕ) :
    (ellipse_t plo x0 w steps).length = 2*steps := by
  simp only [ellipse_t]
  split
  · rw [List.length_append, linspace_length, linspace_length]
    omega
  · rw [linspace_length]

/-- Claim C3 (amended): a visible curve is returned with the sampled points
unchanged (no cropping), some returned x sample lies within
`[-halfExtentX, halfExtentX]` and some returned y sample lies within
`[-halfExtentY, halfExtentY]`; the post-sampling not-visible result occurs
exactly when one of the two axes has no surviving sample. -/
theorem c3_visibility_no_crop (plo : Plo) (omega theta : ℝ) (x y : List ℝ) :
    (∀ xs ys l, finishConic plo omega theta x y = some (xs, ys, l) →
      xs = x ∧ ys = y ∧
        (∃ a ∈ xs, -plo.xdim ≤ a ∧ a ≤ plo.xdim) ∧ (∃ b ∈ ys, -plo.ydim ≤ b ∧ b ≤ plo.ydim)) ∧
    (finishConic plo omega theta x y = none ↔
      ¬((∃ a ∈ x, -plo.xdim ≤ a ∧ a ≤ plo.xdim) ∧ (∃ b ∈ y, -plo.ydim ≤ b ∧ b ≤ plo.ydim))) := by
  constructor
  · intro xs ys l h
    obtain ⟨h1, h2, _, h4, h5⟩ := finishConic_eq_some h
    exact ⟨h1, h2, h1 ▸ h4, h2 ▸ h5⟩
  · exact finishConic_eq_none_iff

/-- Witness for C3 (amended), fired on the concrete circle curve. -/
theorem c3_visibility_no_crop_witness :
    (∃ a ∈ xsEx, -ploEx.xdim ≤ a ∧ a ≤ ploEx.xdim) ∧
      (∃ b ∈ ysEx, -ploEx.ydim ≤ b ∧ b ≤ ploEx.ydim) :=
  (((c3_visibility_no_crop ploEx 0 (Real.pi/4) xsEx ysEx).1 xsEx ysEx 70 finish_ex).2).2

/-- Counterexample to C3 as stated: at `dist = 70`, `omega = 0`, `theta = π/4`,
half-extents `55 × 50`, the curve is returned visible, yet its first returned
point has `y = 70 > 50` (outside the rectangle — nothing was discarded), and in
fact every returned point violates one of the two axis bounds, so no sampled
point survives in both axes. -/
theorem c3_counterexample :
    calc_conic geoEx ploEx 0 (Real.pi/4) 2 = some (xsEx, ysEx, 70) ∧
      ysEx.getD 0 0 = 70 ∧ ploEx.ydim = 50 ∧ ¬((70:ℝ) ≤ 50) ∧
      ¬(xsEx.getD 1 0 ≤ ploEx.xdim) ∧ ¬(-ploEx.xdim ≤ xsEx.getD 2 0) ∧
      ¬(ysEx.getD 3 0 ≤ ploEx.ydim) := by
  have h3 : Real.sqrt 3 * 35 > 55 := by
    nlinarith [Real.sq_sqrt (show (0:ℝ) ≤ 3 by norm_num), Real.sqrt_nonneg 3]
  refine ⟨calc_conic_circle_ex, by simp [ysEx], rfl, by norm_num, ?_, ?_, by norm_num [ysEx, ploEx]⟩
  · simp only [xsEx, ploEx, List.getD]
    norm_num
    linarith
  · simp only [xsEx, ploEx, List.getD]
    norm_num
    linarith

/-- Claim C10: whenever `calc_conic` returns a visible curve, the x and y
arrays have equal length, fixed by the eccentricity branch: `2·steps` for the
circle and for the ellipse (full-range or margin-split, `steps` per arc),
`steps` for the parabola and the hyperbola, and exactly 2 for the degenerate
line. -/
theorem c10_sample_counts (geo : Geo) (plo : Plo) (omega theta : ℝ) (steps : ℕ)
    (xs ys : List ℝ) (l : ℝ)
    (h : calc_conic geo plo omega theta steps = some (xs, ys, l)) :
    xs.length = ys.length ∧
      xs.length = (if |eccOf omega theta| = 0 then 2*steps
        else if |eccOf omega theta| < 1 then 2*steps
        else if |eccOf omega theta| = 1 then steps
        else if |eccOf omega theta| < 100 then steps
        else 2) := by
  unfold calc_conic at h
  split at h
  · exact absurd h (by simp)
  · dsimp only at h
    split at h
    · rename_i hecc
      split at h
      · exact absurd h (by simp)
      · obtain ⟨h1, h2, -, -, -⟩ := finishConic_eq_some h
        rw [if_pos hecc, h1, h2, List.length_map, List.length_map, linspace_length]
        exact ⟨rfl, rfl⟩
    · split at h
      · rename_i hne hecc
        obtain ⟨h1, h2, -, -, -⟩ := finishConic_eq_some h
        rw [if_neg hne, if_pos hecc.2, h1, h2, List.length_map, List.length_map,
          ellipse_t_length]
        exact ⟨rfl, rfl⟩
      · split at h
        · rename_i hne1 hne2 hecc
          obtain ⟨h1, h2, -, -, -⟩ := finishConic_eq_some h
          rw [if_neg hne1, if_neg (by rw [hecc]; exact lt_irrefl 1), if_pos hecc, h1, h2,
            List.length_map, List.length_map, linspace_length]
          exact ⟨rfl, rfl⟩
        · split at h
          · rename_i hne1 hne2 hne3 hecc
            obtain ⟨h1, h2, -, -, -⟩ := finishConic_eq_some h
            rw [if_neg hne1, if_neg (not_lt.mpr hecc.1.le), if_neg hne3, if_pos hecc.2,
              h1, h2, List.length_map, List.length_map, linspace_length]
            exact ⟨rfl, rfl⟩
          · split at h
            · rename_i hne1 hne2 hne3 hne4 hecc
              obtain ⟨h1, h2, -, -, -⟩ := finishConic_eq_some h
              rw [if_neg hne1, if_neg (by push_neg at hne2; intro hlt; linarith),
                if_neg (by intro heq; linarith [hecc]),
                if_neg (not_lt.mpr hecc), h1, h2, List.length_map, linspace_length]
              exact ⟨rfl, rfl⟩
            · exact absurd h (by simp)

/-- Witness for C10, fired on the concrete circle curve (`2·steps = 4` points). -/
theorem c10_sample_counts_witness :
    xsEx.length = ysEx.length ∧
      xsEx.length = (if |eccOf 0 (Real.pi/4)| = 0 then 2*2
        else if |eccOf 0 (Real.pi/4)| < 1 then 2*2
        else if |eccOf 0 (Real.pi/4)| = 1 then 2
        else if |eccOf 0 (Real.pi/4)| < 100 then 2
        else 2) :=
  c10_sample_counts geoEx ploEx 0 (Real.pi/4) 2 xsEx ysEx 70 calc_conic_circle_ex

/-- Claim C2: for `tilt = 0`, `rotation = 0` (hence `omega = 0`) and any
`theta ∈ (0, π/2)`, `calc_conic` takes the circle branch (`ecc = 0`) and every
returned point lies exactly on the circle centered at `(xoff, -yoff)` with
radius `dist * tan theta`. -/
theorem c2_circle_exact (geo : Geo) (plo : Plo) (omega theta : ℝ) (steps : ℕ)
    (hdist : 0 < geo.dist) (htilt : geo.tilt = 0) (hrota : geo.rota = 0)
    (homega : omega = -deg2rad (geo.tilt + geo.rota))
    (htheta1 : 0 < theta) (htheta2 : theta < Real.pi/2) :
    eccOf omega theta = 0 ∧
      ∀ xs ys l, calc_conic geo plo omega theta steps = some (xs, ys, l) →
        ∀ p ∈ xs.zip ys,
          (p.1 - geo.xoff)^2 + (p.2 + geo.yoff)^2 = (geo.dist * Real.tan theta)^2 := by
  have hw0 : omega = 0 := by rw [homega, htilt, hrota]; simp [deg2rad]
  subst hw0
  have hecc : eccOf 0 theta = 0 := by
    rw [eccOf, sub_zero, Real.cos_pi_div_two, zero_div, npRound10_zero]
  refine ⟨hecc, ?_⟩
  intro xs ys l h
  have hdy : dyCone geo 0 = 0 := by simp [dyCone, Real.tan_zero]
  have hdz : dzCone geo 0 = geo.dist := by
    rw [dzCone, hdy]
    rw [show geo.dist^2 + 0^2 = geo.dist^2 by ring, Real.sqrt_sq hdist.le]
  have hy1 : conic_y1 geo 0 theta = geo.dist * Real.tan theta := by
    rw [conic_y1, hdz, zero_add, Real.tan_eq_sin_div_cos, mul_div_assoc]
  have hy2 : conic_y2 geo 0 theta = geo.dist * Real.tan theta := by
    rw [conic_y2, hdz, zero_sub, Real.cos_neg, Real.tan_eq_sin_div_cos, mul_div_assoc]
  unfold calc_conic at h
  rw [if_neg (by rw [abs_zero, add_zero]; exact not_lt.mpr htheta2.le)] at h
  simp only [hdy, hecc, hy1, hy2, htilt, abs_zero, if_true] at h
  split at h
  · exact absurd h (by simp)
  · obtain ⟨h1, h2, -, -, -⟩ := finishConic_eq_some h
    intro p hp
    rw [h1, h2, List.zip_map'] at hp
    rw [List.mem_map] at hp
    obtain ⟨s, -, rfl⟩ := hp
    simp only [deg2rad, zero_mul, zero_div, mul_zero]
    linear_combination (geo.dist * Real.tan theta)^2 * (Real.sin_sq_add_cos_sq s)

/-- Witness for C2, fired on the concrete circle curve: the second returned
point lies on the circle of radius `70·tan(π/4)` centered at the origin. -/
theorem c2_circle_exact_witness :
    eccOf 0 (Real.pi/4) = 0 ∧
      (35*Real.sqrt 3 - geoEx.xoff)^2 + ((-35:ℝ) + geoEx.yoff)^2
        = (geoEx.dist * Real.tan (Real.pi/4))^2 := by
  have hpi := Real.pi_pos
  have hthm := c2_circle_exact geoEx ploEx 0 (Real.pi/4) 2
    (by norm_num [geoEx]) rfl rfl (by simp [deg2rad, geoEx]) (by positivity) (by linarith)
  refine ⟨hthm.1, ?_⟩
  have hmem : ((35*Real.sqrt 3 : ℝ), (-35:ℝ)) ∈ xsEx.zip ysEx := by
    simp [xsEx, ysEx]
  exact hthm.2 xsEx ysEx 70 calc_conic_circle_ex _ hmem

/-- Claim C5: converting `theta` to a d-spacing via
`dsp = 1/(2·sin(theta/2)/(12.398/E))` and back via
`theta = 2·arcsin((12.398/E)/(2·dsp))` recovers `theta` exactly (the swept
contour range lies in `(0°, 180°]`; the unreachable-reflection ratio
`sin(theta/2)` never exceeds 1). -/
theorem c5_unit_roundtrip (ener theta : ℝ) (hE : 0 < ener)
    (h1 : 0 < theta) (h2 : theta ≤ Real.pi) :
    theta_of ener (dsp_of ener theta) = theta := by
  have hpi := Real.pi_pos
  have hs : 0 < Real.sin (theta/2) := by
    apply Real.sin_pos_of_pos_of_lt_pi
    · linarith
    · linarith
  have harg : (12.398 / ener) / (2 * dsp_of ener theta) = Real.sin (theta/2) := by
    unfold dsp_of stl_of
    field_simp
    ring
  unfold theta_of
  rw [harg, Real.arcsin_sin (by linarith) (by linarith)]
  ring

/-- Witness for C5 at `E = 12.398` keV, `theta = π/2`. -/
theorem c5_unit_roundtrip_witness :
    (0:ℝ) < 12.398 ∧ theta_of 12.398 (dsp_of 12.398 (Real.pi/2)) = Real.pi/2 :=
  ⟨by norm_num,
    c5_unit_roundtrip 12.398 (Real.pi/2) (by norm_num) (by positivity)
      (by linarith [Real.pi_pos])⟩

theorem draw_reference_getD (geo : Geo) (plo : Plo) (l : List ℝ) (m : ℕ)
    (hm : m < plo.cont_ref_num) :
    (draw_reference geo plo l).getD m none
      = (if m < l.length then refSlot geo plo (l.getD m 0) else none) := by
  unfold draw_reference
  rw [List.getD_eq_getElem _ _ (by rw [List.length_map, List.length_range]; exact hm)]
  rw [List.getElem_map, List.getElem_range]

/-- Claim C6: a reference entry whose ratio `(12.398/E)/(2·d)` exceeds 1 is
silently skipped (its slot holds no curve), the series stays index-addressed
with its full `cont_ref_num` length, and every other slot `m` is unaffected by
the value of entry `n` (entry `m` always maps to slot `m`). -/
theorem c6_reference_skip (geo : Geo) (plo : Plo) (dsp : List ℝ) (n : ℕ)
    (hn : n < plo.cont_ref_num) (hlen : n < dsp.length)
    (hratio : (12.398 / geo.ener) / (2 * dsp.getD n 0) > 1) :
    (draw_reference geo plo dsp).getD n none = none ∧
      (draw_reference geo plo dsp).length = plo.cont_ref_num ∧
      (∀ m, m < plo.cont_ref_num → m ≠ n → ∀ d',
        (draw_reference geo plo (dsp.set n d')).getD m none
          = (draw_reference geo plo dsp).getD m none) := by
  refine ⟨?_, ?_, ?_⟩
  · rw [draw_reference_getD geo plo dsp n hn, if_pos hlen]
    by_cases hd : dsp.getD n 0 ≤ 0
    · unfold refSlot
      rw [if_pos hd]
    · unfold refSlot
      rw [if_neg hd]
      simp only
      rw [if_pos hratio]
  · unfold draw_reference
    rw [List.length_map, List.length_range]
  · intro m hm hne d'
    rw [draw_reference_getD geo plo _ m hm, draw_reference_getD geo plo dsp m hm,
      List.length_set]
    have hget : (dsp.set n d').getD m 0 = dsp.getD m 0 := by
      simp only [List.getD_eq_getElem?_getD, List.getElem?_set_ne (Ne.symm hne)]
    rw [hget]

/-- Witness for C6: at `E = 21` keV the entry `d = 0.1 Å` has ratio
`≈ 2.95 > 1` and its slot stays empty. -/
theorem c6_reference_skip_witness :
    (0:ℕ) < ploEx.cont_ref_num ∧ (0:ℕ) < ([(1:ℝ)/10]).length ∧
      (12.398 / geoEx.ener) / (2 * ([(1:ℝ)/10]).getD 0 0) > 1 ∧
      (draw_reference geoEx ploEx [(1:ℝ)/10]).getD 0 none = none := by
  have h1 : (0:ℕ) < ploEx.cont_ref_num := by norm_num [ploEx]
  have h2 : (0:ℕ) < ([(1:ℝ)/10]).length := by norm_num
  have h3 : (12.398 / geoEx.ener) / (2 * ([(1:ℝ)/10]).getD 0 0) > 1 := by
    norm_num [geoEx]
  exact ⟨h1, h2, h3, (c6_reference_skip geoEx ploEx _ 0 h1 h2 h3).1⟩

/-- Claim C7 (amended): the cif reference mapper keeps exactly the entries
whose intensity is strictly greater than `minRelativeIntensity × max(intensity)`
(entries at or below the threshold are discarded), sorts the survivors in
descending intensity order, and truncates to at most `maxCount`; in particular
`[(d=3, I=100), (d=2.5, I=5)]` with `minRelativeIntensity = 0.1` yields exactly
`[3]`. -/
theorem c7_reference_mapper (maxN : ℕ) (minInt : ℚ) (refl : List (ℚ × ℚ)) :
    (∀ r ∈ get_cif_ordered maxN minInt refl, refMaxInt refl * minInt < r.2) ∧
      (get_cif_ordered maxN minInt refl).Pairwise (fun a b => b.2 ≤ a.2) ∧
      (get_cif_ordered maxN minInt refl).length
        = min maxN (refl.filter (fun r => decide (refMaxInt refl * minInt < r.2))).length ∧
      get_cif_dsp 100 (1/10) [(3, 100), (5/2, 5)] = [3] := by
  haveI htot : IsTotal (ℚ × ℚ) (fun a b => a.2 ≤ b.2) := ⟨fun a b => le_total a.2 b.2⟩
  haveI htrans : IsTrans (ℚ × ℚ) (fun a b => a.2 ≤ b.2) := ⟨fun _ _ _ h1 h2 => le_trans h1 h2⟩
  refine ⟨?_, ?_, ?_, ?_⟩
  · intro r hr
    unfold get_cif_ordered at hr
    have hr2 := (List.take_sublist _ _).mem hr
    rw [List.mem_reverse] at hr2
    have hr3 := (List.perm_insertionSort (fun a b : ℚ × ℚ => a.2 ≤ b.2) _).mem_iff.mp hr2
    have := List.of_mem_filter hr3
    exact of_decide_eq_true this
  · unfold get_cif_ordered
    apply List.Pairwise.sublist (List.take_sublist _ _)
    rw [List.pairwise_reverse]
    exact List.sorted_insertionSort _ _
  · unfold get_cif_ordered
    rw [List.length_take, List.length_reverse, List.length_insertionSort]
  · norm_num [get_cif_dsp, get_cif_ordered, refMaxInt, List.filter, List.insertionSort,
      List.orderedInsert]

/-- Counterexample to C7 as stated: for `[(d=3, I=100), (d=2.5, I=10)]` with
`minRelativeIntensity = 0.1` the threshold is `10`; the second entry's
intensity equals the threshold — it is not *below* it — yet the mapper drops it
(the comparison in `get_cif_reference` is strict). -/
theorem c7_counterexample :
    get_cif_dsp 100 (1/10) [(3, 100), (5/2, 10)] = [3] ∧
      refMaxInt [((3:ℚ), (100:ℚ)), (5/2, 10)] * (1/10) = 10 ∧
      ¬((10:ℚ) < 10) := by
  refine ⟨?_, by norm_num [refMaxInt], by norm_num⟩
  norm_num [get_cif_dsp, get_cif_ordered, refMaxInt, List.filter, List.insertionSort,
    List.orderedInsert]

theorem intRange_length (a b : ℤ) : (intRange a b).length = (b - a).toNat := by
  rw [intRange, List.length_map, List.length_range]

theorem hIndices_length (det : Det) : (hIndices det).length = det.hmn := by
  rw [hIndices, intRange_length, Int.fdiv_eq_ediv _ (by norm_num),
    Int.fdiv_eq_ediv _ (by norm_num)]
  omega

theorem vIndices_length (det : Det) : (vIndices det).length = det.vmn := by
  rw [vIndices, intRange_length, Int.fdiv_eq_ediv _ (by norm_num),
    Int.fdiv_eq_ediv _ (by norm_num)]
  omega

/-- Claim C8: for `modulesHoriz ≥ 1`, `modulesVert ≥ 1` the footprint builder
produces exactly `hmn × vmn` module rectangles; the half-extents are half of
`moduleSpan·count + pixel·gap·count + hole` per axis; and neither depends on
the rotation or tilt inputs (two arbitrary geometry states give identical
results). -/
theorem c8_detector_footprint (g1 g2 : Geo) (det : Det)
    (h1 : 1 ≤ det.hmn) (h2 : 1 ≤ det.vmn) :
    (build_detector g1 det).length = det.hmn * det.vmn ∧
      build_detector g1 det = build_detector g2 det ∧
      xdim_of g1 det = (det.hms * det.hmn + det.pxs * det.hgp * det.hmn + det.cbh)/2 ∧
      ydim_of g1 det = (det.vms * det.vmn + det.pxs * det.vgp * det.vmn + det.cbh)/2 := by
  refine ⟨?_, rfl, rfl, rfl⟩
  rw [build_detector, List.length_flatMap]
  have hlen : (List.length ∘ fun i : ℤ =>
      List.map (fun j => (origin_x det i j, origin_y det i j)) (vIndices det))
      = fun _ : ℤ => det.vmn := by
    funext i
    simp [Function.comp, vIndices_length]
  rw [hlen, List.map_const', List.sum_replicate, smul_eq_mul, hIndices_length]

/-- Witness for C8 on the EIGER2 4M spec (2×4 modules), with two geometry
states differing in rotation. -/
theorem c8_detector_footprint_witness :
    1 ≤ detEx.hmn ∧ 1 ≤ detEx.vmn ∧
      (build_detector geoEx detEx).length = detEx.hmn * detEx.vmn ∧
      build_detector geoEx detEx = build_detector geoEx2 detEx ∧
      xdim_of geoEx detEx
        = (detEx.hms * detEx.hmn + detEx.pxs * detEx.hgp * detEx.hmn + detEx.cbh)/2 ∧
      ydim_of geoEx detEx
        = (detEx.vms * detEx.vmn + detEx.pxs * detEx.vgp * detEx.vmn + detEx.cbh)/2 := by
  have h1 : 1 ≤ detEx.hmn := by norm_num [detEx]
  have h2 : 1 ≤ detEx.vmn := by norm_num [detEx]
  obtain ⟨a, b, c, d⟩ := c8_detector_footprint geoEx geoEx2 detEx h1 h2
  exact ⟨h1, h2, a, b, c, d⟩

theorem sin_le_sin_of_le {x y : ℝ} (hx : -(Real.pi/2) ≤ x) (hy : y ≤ Real.pi/2)
    (hxy : x ≤ y) : Real.sin x ≤ Real.sin y := by
  rcases eq_or_lt_of_le hxy with rfl | h
  · exact le_refl _
  · exact (Real.strictMonoOn_sin ⟨hx, by linarith⟩ ⟨by linarith, hy⟩ h).le

/-- Claim C4 (amended): in the ellipse branch the parameter range is split into
two arcs exactly when the ellipse extends beyond the `±1.05·halfExtentX` margin
on *both* sides (equivalently, the full `[0, 2π]` range is sampled exactly when
the ellipse stays within the margin on at least one side — not only when it is
fully inside); when split, every sampled parameter of either arc maps to an
`x`-image inside the margin (for `arcsin` arguments in its real domain). -/
theorem c4_ellipse_margin (plo : Plo) (x0 w : ℝ) (steps : ℕ)
    (hw : 0 < w) (hxdim : 0 ≤ plo.xdim) :
    ((plo.xdim * 1.05 + x0) / w < 1 ∧ (plo.xdim * 1.05 - x0) / w < 1
        ↔ x0 - w < -(plo.xdim * 1.05) ∧ plo.xdim * 1.05 < x0 + w) ∧
      (¬((plo.xdim * 1.05 + x0) / w < 1 ∧ (plo.xdim * 1.05 - x0) / w < 1) →
        ellipse_t plo x0 w steps = linspace 0 (2*Real.pi) (2*steps)) ∧
      (((plo.xdim * 1.05 + x0) / w < 1 ∧ (plo.xdim * 1.05 - x0) / w < 1) →
        -1 ≤ (plo.xdim * 1.05 + x0) / w → -1 ≤ (plo.xdim * 1.05 - x0) / w →
        ∀ s ∈ ellipse_t plo x0 w steps,
          -(plo.xdim * 1.05) ≤ x0 + w * Real.sin s ∧
            x0 + w * Real.sin s ≤ plo.xdim * 1.05) := by
  refine ⟨?_, ?_, ?_⟩
  · constructor
    · rintro ⟨p, q⟩
      rw [div_lt_one hw] at p q
      exact ⟨by linarith, by linarith⟩
    · rintro ⟨p, q⟩
      rw [div_lt_one hw, div_lt_one hw]
      exact ⟨by linarith, by linarith⟩
  · intro hn
    simp only [ellipse_t]
    rw [if_neg hn]
  · intro hsplit h1 h2 s hs
    simp only [ellipse_t] at hs
    rw [if_pos hsplit] at hs
    have hs1 : Real.sin (Real.arcsin ((plo.xdim * 1.05 + x0)/w))
        = (plo.xdim * 1.05 + x0)/w := Real.sin_arcsin h1 hsplit.1.le
    have hs2 : Real.sin (Real.arcsin ((plo.xdim * 1.05 - x0)/w))
        = (plo.xdim * 1.05 - x0)/w := Real.sin_arcsin h2 hsplit.2.le
    have hsum : -((plo.xdim * 1.05 + x0)/w) ≤ (plo.xdim * 1.05 - x0)/w := by
      rw [← neg_div]
      exact (div_le_div_iff_of_pos_right hw).mpr (by linarith)
    have hlr : -Real.arcsin ((plo.xdim * 1.05 + x0)/w)
        ≤ Real.arcsin ((plo.xdim * 1.05 - x0)/w) := by
      rw [← Real.arcsin_neg]
      exact Real.monotone_arcsin hsum
    have hww1 : w * ((plo.xdim * 1.05 + x0)/w) = plo.xdim * 1.05 + x0 := by
      field_simp
    have hww2 : w * ((plo.xdim * 1.05 - x0)/w) = plo.xdim * 1.05 - x0 := by
      field_simp
    have key : ∀ t : ℝ, -Real.arcsin ((plo.xdim * 1.05 + x0)/w) ≤ t →
        t ≤ Real.arcsin ((plo.xdim * 1.05 - x0)/w) →
        -(plo.xdim * 1.05) ≤ x0 + w * Real.sin t ∧
          x0 + w * Real.sin t ≤ plo.xdim * 1.05 := by
      intro t htl htr
      have hb1 : -(Real.pi/2) ≤ -Real.arcsin ((plo.xdim * 1.05 + x0)/w) :=
        neg_le_neg (Real.arcsin_le_pi_div_two _)
      have hb2 : Real.arcsin ((plo.xdim * 1.05 - x0)/w) ≤ Real.pi/2 :=
        Real.arcsin_le_pi_div_two _
      have hsl : -((plo.xdim * 1.05 + x0)/w) ≤ Real.sin t := by
        calc -((plo.xdim * 1.05 + x0)/w)
            = Real.sin (-Real.arcsin ((plo.xdim * 1.05 + x0)/w)) := by
              rw [Real.sin_neg, hs1]
          _ ≤ Real.sin t := sin_le_sin_of_le hb1 (le_trans htr hb2) htl
      have hsr : Real.sin t ≤ (plo.xdim * 1.05 - x0)/w := by
        calc Real.sin t
            ≤ Real.sin (Real.arcsin ((plo.xdim * 1.05 - x0)/w)) :=
              sin_le_sin_of_le (le_trans hb1 htl) hb2 htr
          _ = (plo.xdim * 1.05 - x0)/w := hs2
      constructor
      · have hm := mul_le_mul_of_nonneg_left hsl hw.le
        rw [mul_neg, hww1] at hm
        linarith
      · have hm := mul_le_mul_of_nonneg_left hsr hw.le
        rw [hww2] at hm
        linarith
    rcases List.mem_append.mp hs with hsa | hsb
    · obtain ⟨hl, hr⟩ := mem_linspace_bounds hlr hsa
      exact key s hl hr
    · have hlr2 : -Real.arcsin ((plo.xdim * 1.05 - x0)/w) + Real.pi
          ≤ - -Real.arcsin ((plo.xdim * 1.05 + x0)/w) + Real.pi := by
        linarith
      obtain ⟨hl, hr⟩ := mem_linspace_bounds hlr2 hsb
      rw [show Real.sin s = Real.sin (Real.pi - s) from (Real.sin_pi_sub s).symm]
      exact key (Real.pi - s) (by linarith) (by linarith)

/-- Witness for C4 (amended), fired on an ellipse split on both sides:
`x0 = 0`, `w = 100`, half-extent 60. -/
theorem c4_ellipse_margin_witness :
    (0:ℝ) < 100 ∧ (0:ℝ) ≤ ploEx4.xdim ∧
      (((ploEx4.xdim * 1.05 + 0) / 100 < 1 ∧ (ploEx4.xdim * 1.05 - 0) / 100 < 1
          ↔ (0:ℝ) - 100 < -(ploEx4.xdim * 1.05) ∧ ploEx4.xdim * 1.05 < 0 + 100) ∧
        (¬((ploEx4.xdim * 1.05 + 0) / 100 < 1 ∧ (ploEx4.xdim * 1.05 - 0) / 100 < 1) →
          ellipse_t ploEx4 0 100 1 = linspace 0 (2*Real.pi) (2*1)) ∧
        (((ploEx4.xdim * 1.05 + 0) / 100 < 1 ∧ (ploEx4.xdim * 1.05 - 0) / 100 < 1) →
          -1 ≤ (ploEx4.xdim * 1.05 + 0) / 100 → -1 ≤ (ploEx4.xdim * 1.05 - 0) / 100 →
          ∀ s ∈ ellipse_t ploEx4 0 100 1,
            -(ploEx4.xdim * 1.05) ≤ 0 + 100 * Real.sin s ∧
              0 + 100 * Real.sin s ≤ ploEx4.xdim * 1.05)) :=
  ⟨by norm_num, by norm_num [ploEx4],
    c4_ellipse_margin ploEx4 0 100 1 (by norm_num) (by norm_num [ploEx4])⟩

theorem sqrt_two_sq : Real.sqrt 2 ^ 2 = 2 := Real.sq_sqrt (by norm_num)

theorem sqrt_three_sq : Real.sqrt 3 ^ 2 = 3 := Real.sq_sqrt (by norm_num)

theorem sqrt_three_gt : (1.732:ℝ) < Real.sqrt 3 := by
  nlinarith [sqrt_three_sq, Real.sqrt_nonneg 3]

theorem sqrt_three_lt : Real.sqrt 3 < 1.7321 := by
  nlinarith [sqrt_three_sq, Real.sqrt_nonneg 3]

theorem sqrt_two_gt : (1.414:ℝ) < Real.sqrt 2 := by
  nlinarith [sqrt_two_sq, Real.sqrt_nonneg 2]

theorem ecc_ex4_val : Real.cos (Real.pi/2 - -(Real.pi/6)) / Real.cos (Real.pi/6)
    = -(1/Real.sqrt 3) := by
  rw [show Real.pi/2 - -(Real.pi/6) = 2*Real.pi/3 by ring, cos_two_thirds_pi,
    Real.cos_pi_div_six]
  have h3 : Real.sqrt 3 ≠ 0 := by positivity
  field_simp

theorem ecc_ex4_branch :
    0 < |eccOf (-(Real.pi/6)) (Real.pi/6)| ∧ |eccOf (-(Real.pi/6)) (Real.pi/6)| < 1 := by
  have h3a := sqrt_three_gt
  have h3b := sqrt_three_lt
  have h3pos : (0:ℝ) < Real.sqrt 3 := by positivity
  have hq1 : 1/Real.sqrt 3 < 0.5774 := by
    rw [div_lt_iff₀ h3pos]
    nlinarith
  have hq2 : (0.5773:ℝ) < 1/Real.sqrt 3 := by
    rw [lt_div_iff₀ h3pos]
    nlinarith
  have hre := npRound10_abs_le (-(1/Real.sqrt 3))
  rw [abs_le] at hre
  have hecc : eccOf (-(Real.pi/6)) (Real.pi/6) = npRound10 (-(1/Real.sqrt 3)) := by
    rw [eccOf, ecc_ex4_val]
  rw [hecc]
  have hneg : npRound10 (-(1/Real.sqrt 3)) < 0 := by linarith [hre.2]
  constructor
  · exact abs_pos.mpr hneg.ne
  · rw [abs_of_neg hneg]
    linarith [hre.1]

theorem dy_ex4 : dyCone geoEx4 (-(Real.pi/6)) = -(100/Real.sqrt 3) := by
  rw [dyCone, Real.tan_neg, Real.tan_eq_sin_div_cos, Real.sin_pi_div_six, Real.cos_pi_div_six]
  have h3 : Real.sqrt 3 ≠ 0 := by positivity
  rw [show geoEx4.dist = 100 from rfl]
  field_simp

theorem dz_ex4 : dzCone geoEx4 (-(Real.pi/6)) = 200/Real.sqrt 3 := by
  rw [dzCone, dy_ex4, show geoEx4.dist = 100 from rfl]
  have h3 : Real.sqrt 3 ≠ 0 := by positivity
  rw [show (100:ℝ)^2 + (-(100/Real.sqrt 3))^2 = (200/Real.sqrt 3)^2 by
    field_simp
    nlinarith [sqrt_three_sq]]
  exact Real.sqrt_sq (by positivity)

theorem y1_ex4 : conic_y1 geoEx4 (-(Real.pi/6)) (Real.pi/6) = 100/Real.sqrt 3 := by
  rw [conic_y1, dz_ex4, show -(Real.pi/6) + Real.pi/6 = 0 by ring, Real.cos_zero,
    Real.sin_pi_div_six]
  ring

theorem y2_ex4 : conic_y2 geoEx4 (-(Real.pi/6)) (Real.pi/6) = 200/Real.sqrt 3 := by
  rw [conic_y2, dz_ex4, show -(Real.pi/6) - Real.pi/6 = -(Real.pi/3) by ring, Real.cos_neg,
    Real.cos_pi_div_three, Real.sin_pi_div_six]
  have h3 : Real.sqrt 3 ≠ 0 := by positivity
  field_simp
  ring

theorem w_ex4 : ellipse_w geoEx4 (-(Real.pi/6)) (Real.pi/6) = 50*Real.sqrt 2 := by
  have h3 : Real.sqrt 3 ≠ 0 := by positivity
  have h2 : Real.sqrt 2 ≠ 0 := by positivity
  have hsq : Real.sqrt (conic_y1 geoEx4 (-(Real.pi/6)) (Real.pi/6) *
      conic_y2 geoEx4 (-(Real.pi/6)) (Real.pi/6)) = 100*Real.sqrt 2/Real.sqrt 3 := by
    rw [y1_ex4, y2_ex4]
    rw [show 100/Real.sqrt 3 * (200/Real.sqrt 3) = (100*Real.sqrt 2/Real.sqrt 3)^2 by
      field_simp
      nlinarith [sqrt_three_sq, sqrt_two_sq]]
    exact Real.sqrt_sq (by positivity)
  rw [ellipse_w, hsq, dz_ex4, y1_ex4, y2_ex4, Real.sin_pi_div_six, Real.cos_pi_div_six]
  field_simp
  nlinarith [sqrt_three_sq, sqrt_two_sq, Real.sqrt_nonneg 2, Real.sqrt_nonneg 3]

/-- Counterexample to C4 as stated: at `dist = 100`, `rota = 30°`, `tilt = 0`,
`xoff = 20`, `halfExtentX = 60`, `theta = π/6` the solver's angle is
`omega = -π/6`, the ellipse branch is selected (`0 < |ecc| < 1`), the ellipse
half-width is `w = 50·√2 ≈ 70.7`; the full `[0, 2π]` parameter range is sampled
even though the ellipse extends beyond the `1.05·halfExtentX = 63` margin on
the right (`x0 + w > 63`, it stays inside only on the left), so "full range
precisely when fully inside the margin" fails. -/
theorem c4_counterexample :
    -deg2rad (geoEx4.tilt + geoEx4.rota) = -(Real.pi/6) ∧
      geoEx4.xoff = 20 ∧
      (0 < |eccOf (-(Real.pi/6)) (Real.pi/6)| ∧ |eccOf (-(Real.pi/6)) (Real.pi/6)| < 1) ∧
      ellipse_w geoEx4 (-(Real.pi/6)) (Real.pi/6) = 50*Real.sqrt 2 ∧
      ellipse_t ploEx4 20 (50*Real.sqrt 2) 1 = linspace 0 (2*Real.pi) (2*1) ∧
      -(ploEx4.xdim * 1.05) ≤ 20 - 50*Real.sqrt 2 ∧
      ¬(20 + 50*Real.sqrt 2 ≤ ploEx4.xdim * 1.05) := by
  have h2a := sqrt_two_gt
  have h2b : Real.sqrt 2 < 1.66 := by
    nlinarith [sqrt_two_sq, Real.sqrt_nonneg 2]
  have homega : -deg2rad (geoEx4.tilt + geoEx4.rota) = -(Real.pi/6) := by
    rw [deg2rad, show geoEx4.tilt = 0 from rfl, show geoEx4.rota = 30 from rfl]
    ring
  have hmargin : ¬(20 + 50*Real.sqrt 2 ≤ ploEx4.xdim * 1.05) := by
    rw [show ploEx4.xdim = 60 from rfl]
    push_neg
    nlinarith
  have hleft : -(ploEx4.xdim * 1.05) ≤ 20 - 50*Real.sqrt 2 := by
    rw [show ploEx4.xdim = 60 from rfl]
    nlinarith
  have hfull : ellipse_t ploEx4 20 (50*Real.sqrt 2) 1 = linspace 0 (2*Real.pi) (2*1) := by
    simp only [ellipse_t]
    rw [if_neg]
    intro hcon
    have h1 := hcon.1
    rw [div_lt_one (by positivity), show ploEx4.xdim = 60 from rfl] at h1
    nlinarith
  exact ⟨homega, rfl, ecc_ex4_branch, w_ex4, hfull, hleft, hmargin⟩
